import Mathlib

/-!
# Compile-time assertions of `static_assert.h`

The header consists of macros, so the embedding has two layers.

* The macros themselves (`STATIC_ASSERT`, `STATIC_ASSERT_OR_TYPE`,
  `STATIC_ASSERT_OR_ZERO` and the helpers `STATIC_ASSERT_CONCAT`,
  `STATIC_ASSERT_HELPER`) are functions from their arguments to the piece of
  C syntax they expand to. A label is handed over as the preprocessor does it:
  macro-expanded wherever the macro does not paste it directly.
* The constraints of the C and C++ languages the macros rely on (the width of
  a bit-field, the length of an array, redeclaration with compatible types,
  the class named in `class msg`, the use of an incomplete class template, the
  types `int` and `size_t` of the operands) are a checker over that syntax,
  which either accepts or stops with a diagnostic naming the offending
  construct.
-/

set_option autoImplicit false

namespace StaticAssert

/-! ## Tokens and macro expansion -/

/-- The tokens a label can stand for: an identifier, or a number such as the
`1` that GNU compilers predefine `linux` to be. -/
inductive Token where
  | ident (s : String)
  | number (s : String)
  deriving DecidableEq, Repr

/-- The characters of a token. -/
def Token.spelling : Token → String
  | .ident s => s
  | .number s => s

/-- The object-like macros in force, given by the token each identifier stands
for once macro expansion is complete; an identifier that is not a macro name
stands for itself. -/
abbrev Macros := String → Token

/-- Macro expansion of one token: a number is left as it is. -/
def expandToken (m : Macros) : Token → Token
  | .ident s => m s
  | .number s => .number s

/-- No identifier is a macro name. -/
def noMacros : Macros := fun s => .ident s

/-- The macros `linux` and `unix` that GNU compilers predefine as `1`. -/
def gnuMacros : Macros :=
  fun s => if s = "linux" ∨ s = "unix" then .number "1" else .ident s

/-! ## Syntax of the expansions -/

/-- The declared type of a bit-field: `int` or `unsigned int`. -/
inductive BitType where
  | int
  | unsignedInt
  deriving DecidableEq, Repr

mutual
/-- Expressions that occur in a condition or in an expansion. -/
inductive Expr where
  /-- An integer constant of type `int` with the given value. -/
  | const (v : Int)
  /-- An expression whose value is only known when the program runs. -/
  | runtime (name : String)
  /-- Logical negation `!(e)`. -/
  | lnot (e : Expr)
  /-- Comparison `a == b`. -/
  | eq (a b : Expr)
  /-- Sum `a + b`. -/
  | add (a b : Expr)
  /-- Conditional `c ? a : b`. -/
  | ternary (c a b : Expr)
  /-- Size `sizeof(struct { ... })`. -/
  | sizeofStruct (s : List Member)
  /-- Offset `offsetof(struct { ... }, member)`. -/
  | offsetofStruct (s : List Member) (member : String)
  /-- Member access `__StaticAssert<class cls, n>::value` (C++), where `cls` is
  the token that follows `class`. -/
  | staticAssertValue (cls : Token) (n : Expr)
/-- Members of a structure. -/
inductive Member where
  /-- A member of scalar type, such as `int _1;`. -/
  | plain (name : String)
  /-- A named bit-field `ty name : width;`. -/
  | bitfield (ty : BitType) (name : String) (width : Expr)
  /-- A member whose type is an unnamed structure, `struct { ... } name;`. -/
  | nested (s : List Member) (name : String)
end

/-- The name a member declares. -/
def Member.name : Member → String
  | .plain n => n
  | .bitfield _ n _ => n
  | .nested _ n => n

/-- Whether a member is a bit-field. -/
def Member.isBitfield : Member → Bool
  | .bitfield _ _ _ => true
  | _ => false

/-- Why a construct is rejected. -/
inductive Reason where
  | notConstant
  | notRepresentable
  | zeroWidth
  | negativeWidth
  | widthExceedsType
  | duplicateMember
  | noSuchMember
  | offsetOfBitfield
  | notAnIdentifier
  | namesATypedef
  | incompleteType
  | arrayLength
  | conflictingTypes
  | redefinition
  deriving DecidableEq, Repr

/-- A compiler diagnostic: the name of the offending construct and the reason. -/
structure Diagnostic where
  construct : String
  reason : Reason
  deriving DecidableEq, Repr

/-- The types of the operands: `int`, and the unsigned `size_t` that `sizeof`
and `offsetof` give. -/
inductive IntTy where
  | int
  | sizeT
  deriving DecidableEq, Repr

/-- The value of an integer constant expression, with its type. -/
structure Value where
  ty : IntTy
  val : Int
  deriving DecidableEq, Repr

/-- The usual arithmetic conversions: both operands `int` give `int`; with a
`size_t` operand the other one is converted to `size_t`. -/
def IntTy.common : IntTy → IntTy → IntTy
  | .int, .int => .int
  | _, _ => .sizeT

/-- The implementation-defined parameters of the translation: the width of
`int` (at least 16 bits) and of `size_t` (at least that of `int`, so that an
`int` operand is converted to `size_t` and not the other way round), and the
layout of structures with the two guarantees C gives for it: a structure with
a member has a positive size, and its first member is at offset 0. -/
structure Target where
  intBits : Nat
  intBits_ge : 16 ≤ intBits
  sizeBits : Nat
  intBits_le_sizeBits : intBits ≤ sizeBits
  structSize : List Member → Nat
  structSize_pos : ∀ s, s ≠ [] → 0 < structSize s
  memberOffset : List Member → String → Nat
  memberOffset_first : ∀ m rest, memberOffset (m :: rest) m.name = 0

/-- Whether `int` can represent a value. -/
def Target.intRepresentable (t : Target) (v : Int) : Bool :=
  decide (-(2 : Int) ^ (t.intBits - 1) ≤ v ∧ v < (2 : Int) ^ (t.intBits - 1))

/-- The value of an operand after conversion to a type: conversion to `size_t`
reduces modulo 2 to the power of its width. -/
def Target.convert (t : Target) (ty : IntTy) (x : Value) : Int :=
  match ty with
  | .int => x.val
  | .sizeT => x.val % (2 : Int) ^ t.sizeBits

/-- The result of a check: a value or a diagnostic. -/
abbrev Check (α : Type) := Except Diagnostic α

deriving instance DecidableEq for Except

mutual
/-- Evaluation of an expression as an integer constant expression: the typed
value, or the diagnostic of the first operand that is not one. The argument
`td` tells which identifiers are typedef names in the scope. Every operand has
to be constant, also the operand a conditional does not select, and has to be
representable in its type. `!` and `==` give an `int` 0 or 1; `==`, `+` and
`?:` convert their operands by the usual arithmetic conversions, so a sum with
a `size_t` operand wraps. A `sizeof` or `offsetof` needs a well-formed
structure; `offsetof` needs a member that is not a bit-field.
In `__StaticAssert<class cls, n>::value` the token after `class` has to be an
identifier that is not a typedef name; the template is only defined for `n` =
0, where `value` is 0, and for any other `n` the class is incomplete and has
no member to access. The class that `class cls` declares when `cls` is new is
not entered in the scope. -/
def eval (td : String → Bool) (t : Target) : Expr → Check Value
  | .const v =>
    if t.intRepresentable v then .ok ⟨.int, v⟩ else .error ⟨toString v, .notRepresentable⟩
  | .runtime x => .error ⟨x, .notConstant⟩
  | .lnot e =>
    match eval td t e with
    | .error d => .error d
    | .ok x => .ok ⟨.int, if x.val = 0 then 1 else 0⟩
  | .eq a b =>
    match eval td t a with
    | .error d => .error d
    | .ok x =>
      match eval td t b with
      | .error d => .error d
      | .ok y =>
        .ok ⟨.int,
          if t.convert (x.ty.common y.ty) x = t.convert (x.ty.common y.ty) y then 1 else 0⟩
  | .add a b =>
    match eval td t a with
    | .error d => .error d
    | .ok x =>
      match eval td t b with
      | .error d => .error d
      | .ok y =>
        match x.ty.common y.ty with
        | .sizeT =>
          .ok ⟨.sizeT, (t.convert .sizeT x + t.convert .sizeT y) % (2 : Int) ^ t.sizeBits⟩
        | .int =>
          if t.intRepresentable (x.val + y.val) then .ok ⟨.int, x.val + y.val⟩
          else .error ⟨"+", .notRepresentable⟩
  | .ternary c a b =>
    match eval td t c with
    | .error d => .error d
    | .ok x =>
      match eval td t a with
      | .error d => .error d
      | .ok y =>
        match eval td t b with
        | .error d => .error d
        | .ok z =>
          .ok ⟨y.ty.common z.ty, t.convert (y.ty.common z.ty) (if x.val = 0 then z else y)⟩
  | .sizeofStruct s =>
    match checkMembers td t s with
    | .error d => .error d
    | .ok _ => .ok ⟨.sizeT, t.structSize s⟩
  | .offsetofStruct s m =>
    match checkMembers td t s with
    | .error d => .error d
    | .ok _ =>
      match s.find? (fun x => x.name == m) with
      | none => .error ⟨m, .noSuchMember⟩
      | some x =>
        if x.isBitfield then .error ⟨m, .offsetOfBitfield⟩
        else .ok ⟨.sizeT, t.memberOffset s m⟩
  | .staticAssertValue cls n =>
    match cls with
    | .number s => .error ⟨s, .notAnIdentifier⟩
    | .ident s =>
      if td s then .error ⟨s, .namesATypedef⟩
      else
        match eval td t n with
        | .error d => .error d
        | .ok v => if v.val = 0 then .ok ⟨.int, 0⟩ else .error ⟨s, .incompleteType⟩
/-- Constraints on one member of a structure. The width of a bit-field is an
integer constant expression with a value that is not negative and does not
exceed the width of its type, and is not zero when the bit-field has a name;
every bit-field of the header has one. -/
def checkMember (td : String → Bool) (t : Target) : Member → Check Unit
  | .plain _ => .ok ()
  | .bitfield _ name w =>
    match eval td t w with
    | .error d => .error d
    | .ok v =>
      if v.val < 0 then .error ⟨name, .negativeWidth⟩
      else if v.val = 0 then .error ⟨name, .zeroWidth⟩
      else if (t.intBits : Int) < v.val then .error ⟨name, .widthExceedsType⟩
      else .ok ()
  | .nested s _ => checkMembers td t s
/-- Constraints on the member list of a structure: no two members share a
name, and each member is well-formed. -/
def checkMembers (td : String → Bool) (t : Target) : List Member → Check Unit
  | [] => .ok ()
  | m :: ms =>
    if ms.any (fun x => x.name == m.name) then .error ⟨m.name, .duplicateMember⟩
    else
      match checkMember td t m with
      | .error d => .error d
      | .ok _ => checkMembers td t ms
end

/-! ## Declarations and the scope they are checked in -/

/-- What an ordinary identifier is declared as in a scope. -/
inductive Ty where
  /-- A typedef name of an unnamed structure type. -/
  | typedefName
  /-- A function `(void)` returning a pointer to `int [len]`. -/
  | function (len : Int)
  /-- An array `char [len]`. -/
  | charArray (len : Int)
  /-- An object or function that has a definition. -/
  | defined
  deriving DecidableEq, Repr

/-- Declarations of a translation unit. -/
inductive Decl where
  /-- Declaration `typedef struct { ... } name;`. -/
  | typedefStruct (s : List Member) (name : String)
  /-- Declaration `extern int (*name(void)) [len];`. -/
  | externFunction (name : String) (len : Expr)
  /-- Declaration `extern char name[len];`. -/
  | externArray (name : String) (len : Expr)
  /-- The definition of an object or of a function called `name`. -/
  | definition (name : String)

/-- The ordinary identifiers declared so far in a scope. Member names are in a
name space of their own and are not recorded here. -/
abbrev Scope := List (String × Ty)

/-- The typedef names of a scope. -/
def typedefs (sc : Scope) : String → Bool :=
  fun s => decide (sc.lookup s = some Ty.typedefName)

/-- Constraints on one declaration, in a scope; the result is the new scope.
Each `typedef struct { ... }` names a new type, so its name must be new in the
scope. The length of an array with linkage is an integer constant expression
with a value greater than zero. An identifier may be declared again in the same
scope only with the same type. -/
def checkDecl (t : Target) (sc : Scope) : Decl → Check Scope
  | .typedefStruct s name =>
    match checkMembers (typedefs sc) t s with
    | .error d => .error d
    | .ok _ =>
      match sc.lookup name with
      | some _ => .error ⟨name, .redefinition⟩
      | none => .ok ((name, .typedefName) :: sc)
  | .externFunction name len =>
    match eval (typedefs sc) t len with
    | .error d => .error d
    | .ok n =>
      if n.val ≤ 0 then .error ⟨name, .arrayLength⟩
      else
        match sc.lookup name with
        | none => .ok ((name, .function n.val) :: sc)
        | some ty =>
          if ty = .function n.val then .ok sc else .error ⟨name, .conflictingTypes⟩
  | .externArray name len =>
    match eval (typedefs sc) t len with
    | .error d => .error d
    | .ok n =>
      if n.val ≤ 0 then .error ⟨name, .arrayLength⟩
      else
        match sc.lookup name with
        | none => .ok ((name, .charArray n.val) :: sc)
        | some ty =>
          if ty = .charArray n.val then .ok sc else .error ⟨name, .conflictingTypes⟩
  | .definition name =>
    match sc.lookup name with
    | some _ => .error ⟨name, .redefinition⟩
    | none => .ok ((name, .defined) :: sc)

/-- Constraints on a sequence of declarations, checked in order. -/
def checkDecls (t : Target) : Scope → List Decl → Check Scope
  | sc, [] => .ok sc
  | sc, d :: ds =>
    match checkDecl t sc d with
    | .error e => .error e
    | .ok sc' => checkDecls t sc' ds

/-- Whether a check succeeded. -/
def Check.accepted {α : Type} : Check α → Bool
  | .ok _ => true
  | .error _ => false

/-- A sequence of declarations is accepted when it passes in an empty scope. -/
def accepted (t : Target) (ds : List Decl) : Bool :=
  (checkDecls t [] ds).accepted

/-- The objects and functions a sequence of declarations defines, that is,
what receives storage or code. -/
def definitions : List Decl → List String
  | [] => []
  | .definition name :: ds => name :: definitions ds
  | _ :: ds => definitions ds

/-! ## The macros -/

/-- Macro `STATIC_ASSERT_CONCAT_1(x, y)`: the two tokens pasted, `x##y`. -/
def STATIC_ASSERT_CONCAT_1 (x : String) (y : Token) : String := x ++ y.spelling

/-- Macro `STATIC_ASSERT_CONCAT(x, y)`: `STATIC_ASSERT_CONCAT_1(x, y)`, the
argument `y` being macro-expanded first, so that `__COUNTER__` is pasted as its
value, and a label that is a macro name as what it stands for. The first
argument is always the prefix `static_assertion_failed_`, taken not to be a
macro name. -/
def STATIC_ASSERT_CONCAT (m : Macros) (x : String) (y : Token) : String :=
  STATIC_ASSERT_CONCAT_1 x (expandToken m y)

/-- The three definitions of `STATIC_ASSERT`. -/
inductive Variant where
  /-- `#if defined(__COUNTER__) && __COUNTER__ != __COUNTER__`. -/
  | counter
  /-- `#if defined(__GNUC__) && !defined(__cplusplus)`. -/
  | gnuc
  /-- Neither of the two. -/
  | fallback
  deriving DecidableEq, Repr

/-- The two definitions of `STATIC_ASSERT_OR_ZERO`. -/
inductive ZeroVariant where
  /-- The C++ definition, through the class template `__StaticAssert`. -/
  | template
  /-- The definition through `offsetof`. -/
  | offsetof
  deriving DecidableEq, Repr

/-- What the conditional inclusion of the header tests. -/
structure Compiler where
  /-- `__COUNTER__` is defined and two expansions of it differ. -/
  hasCounter : Bool
  /-- The value of `__GNUC__`, when it is defined. -/
  gnuc : Option Nat
  /-- `__cplusplus` is defined. -/
  cplusplus : Bool
  /-- `__clang__` is defined. -/
  clang : Bool

/-- The definition of `STATIC_ASSERT` the header selects. -/
def Compiler.staticAssert (c : Compiler) : Variant :=
  if c.hasCounter then .counter
  else if c.gnuc.isSome && !c.cplusplus then .gnuc
  else .fallback

/-- The definition of `STATIC_ASSERT_OR_ZERO` the header selects. -/
def Compiler.orZero (c : Compiler) : ZeroVariant :=
  if c.cplusplus && (c.gnuc.isNone || c.gnuc.any (fun v => 6 ≤ v) || c.clang) then .template
  else .offsetof

/-- Macro `STATIC_ASSERT_HELPER(cond, msg)` of the GNU C definition:
`(!!sizeof(struct { unsigned int static_assertion_failed_##msg: (cond) ? 1 : -1; }))`.
It pastes its argument as it receives it. -/
def STATIC_ASSERT_HELPER (cond : Expr) (msg : Token) : Expr :=
  .lnot (.lnot (.sizeofStruct
    [.bitfield .unsignedInt ("static_assertion_failed_" ++ msg.spelling)
      (.ternary cond (.const 1) (.const (-1)))]))

/-- Macro `STATIC_ASSERT_OR_TYPE(cond, msg)`:
`struct { int STATIC_ASSERT_CONCAT(static_assertion_failed_, msg) : !!(cond); }`. -/
def STATIC_ASSERT_OR_TYPE (m : Macros) (cond : Expr) (msg : String) : List Member :=
  [.bitfield .int (STATIC_ASSERT_CONCAT m "static_assertion_failed_" (.ident msg))
    (.lnot (.lnot cond))]

/-- Macro `STATIC_ASSERT(cond, msg)` in its three definitions. The argument
`counter` is the value the next expansion of `__COUNTER__` gives; the result is
the declarations of the expansion and the value of the counter after it.
The `__COUNTER__` definition hands `msg` to `STATIC_ASSERT_CONCAT` and the GNU C
definition hands it to `STATIC_ASSERT_HELPER`, so both macro-expand it; the
fallback definition pastes it with `##` as it is written. -/
def STATIC_ASSERT (m : Macros) (v : Variant) (counter : Nat) (cond : Expr) (msg : String) :
    List Decl × Nat :=
  match v with
  | .counter =>
    ([.typedefStruct
        [.bitfield .int (STATIC_ASSERT_CONCAT m "static_assertion_failed_" (.ident msg))
          (.lnot (.lnot cond))]
        (STATIC_ASSERT_CONCAT m "static_assertion_failed_" (.number (Nat.repr counter)))],
      counter + 1)
  | .gnuc =>
    ([.externFunction "assert_function__"
        (STATIC_ASSERT_HELPER cond (expandToken m (.ident msg)))], counter)
  | .fallback =>
    ([.externArray ("static_assertion_failed_" ++ msg) (.const 1),
      .externArray ("static_assertion_failed_" ++ msg) (.ternary cond (.const 1) (.const 2))],
      counter)

/-- Macro `STATIC_ASSERT_OR_ZERO(cond, msg)` in its two definitions:
`(__StaticAssert<class msg, !(cond)>::value)` and
`offsetof(struct { int _1; STATIC_ASSERT_OR_TYPE(cond, msg) _2; }, _1)`.
In the first one `msg` is macro-expanded and then follows `class`; the second
one hands it to `STATIC_ASSERT_OR_TYPE`. -/
def STATIC_ASSERT_OR_ZERO (m : Macros) (z : ZeroVariant) (cond : Expr) (msg : String) : Expr :=
  match z with
  | .template => .staticAssertValue (expandToken m (.ident msg)) (.lnot cond)
  | .offsetof =>
    .offsetofStruct [.plain "_1", .nested (STATIC_ASSERT_OR_TYPE m cond msg) "_2"] "_1"

/-- A sequence of `STATIC_ASSERT(cond, msg)` in one scope, expanded in order. -/
def expandAll (m : Macros) (v : Variant) : Nat → List (Expr × String) → List Decl
  | _, [] => []
  | n, (cond, msg) :: rest =>
    (STATIC_ASSERT m v n cond msg).1 ++ expandAll m v (STATIC_ASSERT m v n cond msg).2 rest

/-! ## Notions the statements use -/

/-- A target with a 32-bit `int` and `size_t`, where every member takes four
bytes. -/
def target32 : Target where
  intBits := 32
  intBits_ge := by decide
  sizeBits := 32
  intBits_le_sizeBits := by decide
  structSize s := 4 * (s.length + 1)
  structSize_pos s _ := Nat.mul_pos (by decide) (Nat.succ_pos s.length)
  memberOffset s m := 4 * s.findIdx (fun x => x.name == m)
  memberOffset_first m rest := by simp [List.findIdx_cons]

/-- A condition holds when it is an integer constant expression whose value
is not zero. -/
def holds (td : String → Bool) (t : Target) (cond : Expr) : Bool :=
  match eval td t cond with
  | .ok x => decide (x.val ≠ 0)
  | .error _ => false

/-- Whether the label can follow `class` in the C++ definition of
`STATIC_ASSERT_OR_ZERO`: it stands for an identifier that is not a typedef
name. The `offsetof` definition puts no such constraint on the label. -/
def classOk (m : Macros) (td : String → Bool) (z : ZeroVariant) (msg : String) : Bool :=
  match z with
  | .offsetof => true
  | .template =>
    match m msg with
    | .ident s => !td s
    | .number _ => false

/-- The type of `STATIC_ASSERT_OR_ZERO`: the enumerator `value` is promoted to
`int`, `offsetof` gives a `size_t`. -/
def ZeroVariant.ty : ZeroVariant → IntTy
  | .template => .int
  | .offsetof => .sizeT

/-- The name of the construct each definition of `STATIC_ASSERT` makes
ill-formed: the prefix, followed by the label as the definition pastes it. -/
def Variant.construct (m : Macros) (v : Variant) (msg : String) : String :=
  match v with
  | .counter => "static_assertion_failed_" ++ (m msg).spelling
  | .gnuc => "static_assertion_failed_" ++ (m msg).spelling
  | .fallback => "static_assertion_failed_" ++ msg

/-- The reason of the diagnostic each definition of `STATIC_ASSERT` produces
for a condition with the value 0. -/
def Variant.reason : Variant → Reason
  | .counter => .zeroWidth
  | .gnuc => .negativeWidth
  | .fallback => .conflictingTypes

/-- The names one assertion declares are free in the scope, or declared there
with the type the assertion gives them. -/
def Fits (m : Macros) (v : Variant) (n : Nat) (msg : String) (sc : Scope) : Prop :=
  match v with
  | .counter =>
    sc.lookup (STATIC_ASSERT_CONCAT m "static_assertion_failed_" (.number (Nat.repr n))) = none
  | .gnuc =>
    sc.lookup "assert_function__" = none ∨ sc.lookup "assert_function__" = some (.function 1)
  | .fallback =>
    sc.lookup ("static_assertion_failed_" ++ msg) = none ∨
      sc.lookup ("static_assertion_failed_" ++ msg) = some (.charArray 1)

instance (m : Macros) (v : Variant) (n : Nat) (msg : String) (sc : Scope) :
    Decidable (Fits m v n msg sc) := by
  cases v <;> unfold Fits <;> infer_instance

/-- The property of a scope that a sequence of assertions maintains, for each
definition of `STATIC_ASSERT`: the typedef names of the counter values still to
come are free; `assert_function__` is undeclared or has the type with length 1;
every array declared has length 1. -/
def ScopeOk (m : Macros) (v : Variant) (n : Nat) (sc : Scope) : Prop :=
  match v with
  | .counter =>
    ∀ k, n ≤ k →
      sc.lookup (STATIC_ASSERT_CONCAT m "static_assertion_failed_" (.number (Nat.repr k))) = none
  | .gnuc =>
    sc.lookup "assert_function__" = none ∨ sc.lookup "assert_function__" = some (.function 1)
  | .fallback => ∀ name ty, sc.lookup name = some ty → ty = .charArray 1

/-- The scope an assertion with a true condition leaves. -/
def scopeAfter (m : Macros) (v : Variant) (n : Nat) (msg : String) (sc : Scope) : Scope :=
  match v with
  | .counter =>
    (STATIC_ASSERT_CONCAT m "static_assertion_failed_" (.number (Nat.repr n)), .typedefName)
      :: sc
  | .gnuc =>
    match sc.lookup "assert_function__" with
    | none => ("assert_function__", .function 1) :: sc
    | some _ => sc
  | .fallback =>
    match sc.lookup ("static_assertion_failed_" ++ msg) with
    | none => ("static_assertion_failed_" ++ msg, .charArray 1) :: sc
    | some _ => sc

/-- Every condition of a sequence of assertions holds where it stands, that
is, with the typedef names in scope that the assertions before it leave. For
the GNU C and the fallback definition these are the typedef names of the scope
the sequence starts in. -/
def holdsInOrder (t : Target) (m : Macros) (v : Variant) :
    Scope → Nat → List (Expr × String) → Bool
  | _, _, [] => true
  | sc, n, (cond, msg) :: rest =>
    holds (typedefs sc) t cond &&
      holdsInOrder t m v (scopeAfter m v n msg sc) (STATIC_ASSERT m v n cond msg).2 rest

/-- The typedef names a sequence of declarations introduces. -/
def typedefNames : List Decl → List String
  | [] => []
  | .typedefStruct _ name :: ds => name :: typedefNames ds
  | _ :: ds => typedefNames ds

/-- The number a list of decimal digits spells, read from the left. -/
def digitsValue (acc : Nat) (ds : List Char) : Nat :=
  ds.foldl (fun a c => 10 * a + (c.toNat - 48)) acc

/-- The condition of line 8 of `tests/test.c`, `offsetof(struct foo, string) == 0`,
for `struct foo { char *string; int size; }`. -/
def testCondition : Expr :=
  .eq (.offsetofStruct [.plain "string", .plain "size"] "string") (.const 0)

/-- Lines 8 to 10 of `tests/test.c`: the three forms on `testCondition`, the
expression form inside the condition of a statement form; with the value of the
counter after them. -/
def testPassing (m : Macros) (v : Variant) (z : ZeroVariant) (n : Nat) : List Decl × Nat :=
  let line8 :=
    STATIC_ASSERT m v n testCondition "string_should_be_first_member_of_struct_foo"
  let line9 := Decl.typedefStruct
    (STATIC_ASSERT_OR_TYPE m testCondition "string_should_be_first_member_of_struct_foo")
    "foo_type"
  let line10 := STATIC_ASSERT m v line8.2
    (.eq
      (STATIC_ASSERT_OR_ZERO m z testCondition "string_should_be_first_member_of_struct_foo")
      (.const 0))
    "STATIC_ASSERT_OR_ZERO_should_equal_zero"
  (line8.1 ++ [line9] ++ line10.1, line10.2)

/-- Lines 8 to 11 of `tests/test.c`; line 11 is `STATIC_ASSERT(0, ...)`. -/
def testProgram (m : Macros) (v : Variant) (z : ZeroVariant) (n : Nat) : List Decl :=
  (testPassing m v z n).1 ++
  (STATIC_ASSERT m v (testPassing m v z n).2 (.const 0)
    "THIS_ERROR_MESSAGE_TELLS_THAT_ALL_TESTS_ARE_SUCCESSFUL").1

/-! ## Spelling of the counter -/

theorem digitChar_value (k : Nat) (h : k < 10) : (Nat.digitChar k).toNat - 48 = k := by
  interval_cases k <;> rfl

theorem digitsValue_toDigitsCore (fuel : Nat) :
    ∀ (n : Nat) (ds : List Char), n < fuel →
      digitsValue 0 (Nat.toDigitsCore 10 fuel n ds) = digitsValue n ds := by
  induction fuel with
  | zero => intro n ds h; omega
  | succ fuel ih =>
    intro n ds h
    have hd : (Nat.digitChar (n % 10)).toNat - 48 = n % 10 :=
      digitChar_value _ (Nat.mod_lt _ (by decide))
    by_cases h0 : n / 10 = 0
    · have hn : n % 10 = n := Nat.mod_eq_of_lt (by omega)
      rw [hn] at hd
      simp [Nat.toDigitsCore, h0, digitsValue, hd, hn]
    · have hlt : n / 10 < fuel := by omega
      simp only [Nat.toDigitsCore, h0, if_false]
      rw [ih (n / 10) _ hlt]
      simp only [digitsValue, List.foldl_cons, hd]
      congr 1
      omega

theorem digitsValue_repr (n : Nat) : digitsValue 0 (Nat.repr n).data = n := by
  simp only [Nat.repr, Nat.toDigits, List.asString]
  rw [digitsValue_toDigitsCore (n + 1) n [] (Nat.lt_succ_self n)]
  rfl

/-- Two counter values with the same decimal spelling are equal. -/
theorem repr_injective {a b : Nat} (h : Nat.repr a = Nat.repr b) : a = b := by
  have := congrArg (fun s => digitsValue 0 s.data) h
  simpa [digitsValue_repr] using this

/-- Pasting two different counter values after the same prefix gives different names. -/
theorem concat_repr_injective {m : Macros} {p : String} {a b : Nat}
    (h : STATIC_ASSERT_CONCAT m p (.number (Nat.repr a)) =
      STATIC_ASSERT_CONCAT m p (.number (Nat.repr b))) : a = b := by
  apply repr_injective
  have := congrArg String.data h
  simp only [STATIC_ASSERT_CONCAT, STATIC_ASSERT_CONCAT_1, expandToken, Token.spelling,
    String.data_append] at this
  exact String.ext (List.append_cancel_left this)

theorem concat_ident (m : Macros) (p msg : String) :
    STATIC_ASSERT_CONCAT m p (.ident msg) = p ++ (m msg).spelling := rfl

/-! ## Evaluation of the expressions the macros build -/

/-- The constants the header writes, 0, 1, 2 and -1, are representable. -/
theorem intRepresentable_small (t : Target) (v : Int) (h1 : -2 ≤ v) (h2 : v ≤ 2) :
    t.intRepresentable v = true := by
  have hb := t.intBits_ge
  have hp : (2 : Int) ^ 15 ≤ (2 : Int) ^ (t.intBits - 1) :=
    pow_le_pow_right₀ (by norm_num) (by omega)
  have h15 : (2 : Int) ^ 15 = 32768 := by norm_num
  simp only [Target.intRepresentable, decide_eq_true_eq]
  constructor <;> omega

theorem eval_const_small (td : String → Bool) (t : Target) (v : Int) (h1 : -2 ≤ v)
    (h2 : v ≤ 2) : eval td t (.const v) = .ok ⟨.int, v⟩ := by
  simp [eval, intRepresentable_small t v h1 h2]

theorem holds_of_ok {td : String → Bool} {t : Target} {cond : Expr} {x : Value}
    (h : eval td t cond = .ok x) (hx : x.val ≠ 0) : holds td t cond = true := by
  simp [holds, h, hx]

theorem not_holds_of_zero {td : String → Bool} {t : Target} {cond : Expr} {x : Value}
    (h : eval td t cond = .ok x) (hx : x.val = 0) : holds td t cond = false := by
  simp [holds, h, hx]

theorem not_holds_of_error {td : String → Bool} {t : Target} {cond : Expr} {d : Diagnostic}
    (h : eval td t cond = .error d) : holds td t cond = false := by
  simp [holds, h]

theorem holds_iff {td : String → Bool} {t : Target} {cond : Expr} :
    holds td t cond = true ↔ ∃ x, eval td t cond = .ok x ∧ x.val ≠ 0 := by
  unfold holds
  cases h : eval td t cond with
  | error d => simp
  | ok x => simp

/-- The three outcomes of evaluating a condition. -/
theorem eval_cases (td : String → Bool) (t : Target) (cond : Expr) :
    (∃ d, eval td t cond = .error d) ∨ (∃ x, eval td t cond = .ok x ∧ x.val = 0) ∨
      ∃ x, eval td t cond = .ok x ∧ x.val ≠ 0 := by
  cases h : eval td t cond with
  | error d => exact Or.inl ⟨d, rfl⟩
  | ok x =>
    by_cases hx : x.val = 0
    · exact Or.inr (Or.inl ⟨x, rfl, hx⟩)
    · exact Or.inr (Or.inr ⟨x, rfl, hx⟩)

theorem not_accepted_iff_error {α : Type} (c : Check α) :
    c.accepted = false ↔ ∃ d, c = .error d := by
  cases c with
  | error d => simp [Check.accepted]
  | ok a => simp [Check.accepted]

theorem eval_lnot {td : String → Bool} {t : Target} {e : Expr} {x : Value}
    (h : eval td t e = .ok x) :
    eval td t (.lnot e) = .ok ⟨.int, if x.val = 0 then 1 else 0⟩ := by
  simp [eval, h]

theorem eval_lnot_lnot {td : String → Bool} {t : Target} {cond : Expr} {x : Value}
    (h : eval td t cond = .ok x) :
    eval td t (.lnot (.lnot cond)) = .ok ⟨.int, if x.val = 0 then 0 else 1⟩ := by
  by_cases hx : x.val = 0 <;> simp [eval, h, hx]

theorem eval_lnot_lnot_error {td : String → Bool} {t : Target} {cond : Expr} {d : Diagnostic}
    (h : eval td t cond = .error d) : eval td t (.lnot (.lnot cond)) = .error d := by
  simp [eval, h]

theorem eval_ternary {td : String → Bool} {t : Target} {cond : Expr} {x : Value} {a b : Int}
    (h : eval td t cond = .ok x) (ha1 : -2 ≤ a) (ha2 : a ≤ 2) (hb1 : -2 ≤ b) (hb2 : b ≤ 2) :
    eval td t (.ternary cond (.const a) (.const b)) =
      .ok ⟨.int, if x.val = 0 then b else a⟩ := by
  have ha := intRepresentable_small t a ha1 ha2
  have hb := intRepresentable_small t b hb1 hb2
  by_cases hx : x.val = 0 <;> simp [eval, h, ha, hb, hx, IntTy.common, Target.convert]

theorem eval_ternary_error {td : String → Bool} {t : Target} {cond : Expr} {d : Diagnostic}
    {a b : Expr} (h : eval td t cond = .error d) :
    eval td t (.ternary cond a b) = .error d := by
  simp [eval, h]

theorem eval_eq_of_ok {td : String → Bool} {t : Target} {a b : Expr} {x y : Value}
    (ha : eval td t a = .ok x) (hb : eval td t b = .ok y) :
    eval td t (.eq a b) =
      .ok ⟨.int,
        if t.convert (x.ty.common y.ty) x = t.convert (x.ty.common y.ty) y then 1 else 0⟩ := by
  simp [eval, ha, hb]

theorem eval_eq_error {td : String → Bool} {t : Target} {a b : Expr} {d : Diagnostic}
    (ha : eval td t a = .error d) : eval td t (.eq a b) = .error d := by
  simp [eval, ha]

/-- The bit-field of `STATIC_ASSERT_OR_TYPE`, and of the `__COUNTER__` definition. -/
theorem checkMembers_or_type (td : String → Bool) (t : Target) (m : Macros) (cond : Expr)
    (msg : String) :
    checkMembers td t (STATIC_ASSERT_OR_TYPE m cond msg) =
      match eval td t cond with
      | .error d => .error d
      | .ok x =>
        if x.val = 0 then
          .error ⟨"static_assertion_failed_" ++ (m msg).spelling, .zeroWidth⟩
        else .ok () := by
  cases h : eval td t cond with
  | error d => simp [STATIC_ASSERT_OR_TYPE, checkMembers, checkMember, eval, h]
  | ok x =>
    have hb := t.intBits_ge
    by_cases hx : x.val = 0
    · simp [STATIC_ASSERT_OR_TYPE, checkMembers, checkMember, eval, h, hx, concat_ident]
    · have : ¬ ((t.intBits : Int) < 1) := by omega
      simp [STATIC_ASSERT_OR_TYPE, checkMembers, checkMember, eval, h, hx, this]

/-- The array length of the GNU C definition. -/
theorem eval_helper (td : String → Bool) (t : Target) (cond : Expr) (msg : Token) :
    eval td t (STATIC_ASSERT_HELPER cond msg) =
      match eval td t cond with
      | .error d => .error d
      | .ok x =>
        if x.val = 0 then
          .error ⟨"static_assertion_failed_" ++ msg.spelling, .negativeWidth⟩
        else .ok ⟨.int, 1⟩ := by
  have h1 := intRepresentable_small t 1 (by decide) (by decide)
  have hm1 := intRepresentable_small t (-1) (by decide) (by decide)
  cases h : eval td t cond with
  | error d => simp [STATIC_ASSERT_HELPER, checkMembers, checkMember, eval, h]
  | ok x =>
    have hb := t.intBits_ge
    have hs := t.structSize_pos
      [.bitfield .unsignedInt ("static_assertion_failed_" ++ msg.spelling)
        (.ternary cond (.const 1) (.const (-1)))] (List.cons_ne_nil _ _)
    by_cases hx : x.val = 0
    · simp [STATIC_ASSERT_HELPER, checkMembers, checkMember, eval, h, hx, h1, hm1,
        IntTy.common, Target.convert]
    · have : ¬ ((t.intBits : Int) < 1) := by omega
      have hs' : t.structSize
        [.bitfield .unsignedInt ("static_assertion_failed_" ++ msg.spelling)
          (.ternary cond (.const 1) (.const (-1)))] ≠ 0 := by omega
      simp [STATIC_ASSERT_HELPER, checkMembers, checkMember, eval, h, hx, h1, hm1,
        IntTy.common, Target.convert, this, hs']

/-- The value of the `offsetof` definition of `STATIC_ASSERT_OR_ZERO`. -/
theorem eval_or_zero_offsetof (td : String → Bool) (t : Target) (m : Macros) (cond : Expr)
    (msg : String) :
    eval td t (STATIC_ASSERT_OR_ZERO m .offsetof cond msg) =
      match eval td t cond with
      | .error d => .error d
      | .ok x =>
        if x.val = 0 then
          .error ⟨"static_assertion_failed_" ++ (m msg).spelling, .zeroWidth⟩
        else .ok ⟨.sizeT, 0⟩ := by
  have ho := t.memberOffset_first (.plain "_1")
    [.nested (STATIC_ASSERT_OR_TYPE m cond msg) "_2"]
  simp only [Member.name] at ho
  have hb := t.intBits_ge
  have hw : ¬ ((t.intBits : Int) < 1) := by omega
  cases h : eval td t cond with
  | error d =>
    simp [STATIC_ASSERT_OR_ZERO, STATIC_ASSERT_OR_TYPE, eval, checkMembers, checkMember, h,
      Member.name]
  | ok x =>
    by_cases hx : x.val = 0
    · simp [STATIC_ASSERT_OR_ZERO, STATIC_ASSERT_OR_TYPE, eval, checkMembers, checkMember, h,
        Member.name, hx, concat_ident]
    · simp [STATIC_ASSERT_OR_ZERO, STATIC_ASSERT_OR_TYPE, eval, checkMembers, checkMember, h,
        Member.name, hx, hw, Member.isBitfield]
      simpa [STATIC_ASSERT_OR_TYPE] using ho

/-- The value of the C++ definition of `STATIC_ASSERT_OR_ZERO`. -/
theorem eval_or_zero_template (td : String → Bool) (t : Target) (m : Macros) (cond : Expr)
    (msg : String) :
    eval td t (STATIC_ASSERT_OR_ZERO m .template cond msg) =
      match m msg with
      | .number s => .error ⟨s, .notAnIdentifier⟩
      | .ident s =>
        if td s then .error ⟨s, .namesATypedef⟩
        else
          match eval td t cond with
          | .error d => .error d
          | .ok x => if x.val = 0 then .error ⟨s, .incompleteType⟩ else .ok ⟨.int, 0⟩ := by
  cases hm : m msg with
  | number s => simp [STATIC_ASSERT_OR_ZERO, expandToken, eval, hm]
  | ident s =>
    by_cases htd : td s = true
    · simp [STATIC_ASSERT_OR_ZERO, expandToken, eval, hm, htd]
    · cases h : eval td t cond with
      | error d => simp [STATIC_ASSERT_OR_ZERO, expandToken, eval, hm, htd, h]
      | ok x =>
        by_cases hx : x.val = 0 <;>
          simp [STATIC_ASSERT_OR_ZERO, expandToken, eval, hm, htd, h, hx]

/-- For a condition that holds and a label that can follow `class`, the value
of `STATIC_ASSERT_OR_ZERO` is 0 of the type of the definition. -/
theorem eval_or_zero_of_holds {td : String → Bool} {t : Target} {cond : Expr} (m : Macros)
    (z : ZeroVariant) (msg : String) (h : holds td t cond = true)
    (hc : classOk m td z msg = true) :
    eval td t (STATIC_ASSERT_OR_ZERO m z cond msg) = .ok ⟨z.ty, 0⟩ := by
  obtain ⟨x, hx, hne⟩ := holds_iff.mp h
  cases z with
  | offsetof => rw [eval_or_zero_offsetof, hx]; simp [hne, ZeroVariant.ty]
  | template =>
    rw [eval_or_zero_template]
    simp only [classOk] at hc
    cases hm : m msg with
    | number s => simp [hm] at hc
    | ident s =>
      simp only [hm, Bool.not_eq_true'] at hc
      simp [hc, hx, hne, ZeroVariant.ty]

theorem accepted_or_zero (td : String → Bool) (t : Target) (m : Macros) (z : ZeroVariant)
    (cond : Expr) (msg : String) :
    (eval td t (STATIC_ASSERT_OR_ZERO m z cond msg)).accepted =
      (holds td t cond && classOk m td z msg) := by
  cases z with
  | offsetof =>
    rw [eval_or_zero_offsetof]
    rcases eval_cases td t cond with ⟨d, hd⟩ | ⟨x, hx, h0⟩ | ⟨x, hx, hne⟩
    · simp [hd, holds, Check.accepted, classOk]
    · simp [hx, h0, holds, Check.accepted, classOk]
    · simp [hx, hne, holds, Check.accepted, classOk]
  | template =>
    rw [eval_or_zero_template]
    cases hm : m msg with
    | number s => simp [classOk, hm, Check.accepted]
    | ident s =>
      by_cases htd : td s = true
      · simp [classOk, hm, htd, Check.accepted]
      · rcases eval_cases td t cond with ⟨d, hd⟩ | ⟨x, hx, h0⟩ | ⟨x, hx, hne⟩
        · simp [hd, holds, Check.accepted, classOk, hm, htd]
        · simp [hx, h0, holds, Check.accepted, classOk, hm, htd]
        · simp [hx, hne, holds, Check.accepted, classOk, hm, htd]

theorem accepted_or_type (td : String → Bool) (t : Target) (m : Macros) (cond : Expr)
    (msg : String) :
    (checkMembers td t (STATIC_ASSERT_OR_TYPE m cond msg)).accepted = holds td t cond := by
  rw [checkMembers_or_type]
  rcases eval_cases td t cond with ⟨d, hd⟩ | ⟨x, hx, h0⟩ | ⟨x, hx, hne⟩
  · simp [hd, holds, Check.accepted]
  · simp [hx, h0, holds, Check.accepted]
  · simp [hx, hne, holds, Check.accepted]

/-! ## One assertion in a scope -/

theorem checkDecls_append (t : Target) (a b : List Decl) :
    ∀ sc, checkDecls t sc (a ++ b) =
      match checkDecls t sc a with
      | .error e => .error e
      | .ok sc' => checkDecls t sc' b := by
  induction a with
  | nil => intro sc; simp [checkDecls]
  | cons d ds ih =>
    intro sc
    simp only [List.cons_append, checkDecls]
    cases checkDecl t sc d with
    | error e => simp
    | ok sc' => simpa using ih sc'

/-- Declaring an array in front of a scope where its name is free leaves the
typedef names as they are. -/
theorem typedefs_cons_array (sc : Scope) (name : String) (len : Int)
    (h : sc.lookup name = none) : typedefs ((name, .charArray len) :: sc) = typedefs sc := by
  funext s
  by_cases hs : s = name
  · subst hs; simp [typedefs, List.lookup, h]
  · have : (s == name) = false := by simpa using hs
    simp [typedefs, List.lookup, this]

theorem scopeOk_nil (m : Macros) (v : Variant) (n : Nat) : ScopeOk m v n [] := by
  cases v <;> simp [ScopeOk]

theorem fits_nil (m : Macros) (v : Variant) (n : Nat) (msg : String) : Fits m v n msg [] := by
  cases v <;> simp [Fits]

theorem fits_of_scopeOk {m : Macros} {v : Variant} {n : Nat} {sc : Scope} (msg : String)
    (h : ScopeOk m v n sc) : Fits m v n msg sc := by
  cases v with
  | counter => exact h n (Nat.le_refl n)
  | gnuc => exact h
  | fallback =>
    cases hl : sc.lookup ("static_assertion_failed_" ++ msg) with
    | none => exact Or.inl hl
    | some ty => exact Or.inr (by rw [hl, h _ _ hl])

/-- An assertion whose condition has the value 0 is rejected in every scope,
with a diagnostic on the construct named after the label as pasted. -/
theorem static_assert_zero (t : Target) (m : Macros) (v : Variant) (sc : Scope) (n : Nat)
    (cond : Expr) (msg : String) (x : Value) (h : eval (typedefs sc) t cond = .ok x)
    (hx : x.val = 0) :
    checkDecls t sc (STATIC_ASSERT m v n cond msg).1 =
      .error ⟨v.construct m msg, v.reason⟩ := by
  cases v with
  | counter =>
    have hm := checkMembers_or_type (typedefs sc) t m cond msg
    simp only [h, hx, if_true, STATIC_ASSERT_OR_TYPE] at hm
    simp [STATIC_ASSERT, checkDecls, checkDecl, hm, Variant.reason, Variant.construct]
  | gnuc =>
    have hm := eval_helper (typedefs sc) t cond (m msg)
    simp only [h, hx, if_true] at hm
    simp [STATIC_ASSERT, checkDecls, checkDecl, hm, Variant.reason, Variant.construct,
      expandToken]
  | fallback =>
    have h1 := eval_const_small (typedefs sc) t 1 (by decide) (by decide)
    have h2 : ∀ td, eval td t cond = .ok x →
        eval td t (.ternary cond (.const 1) (.const 2)) = .ok ⟨.int, 2⟩ := by
      intro td htd
      rw [eval_ternary htd (by decide) (by decide) (by decide) (by decide)]; simp [hx]
    cases hl : sc.lookup ("static_assertion_failed_" ++ msg) with
    | none =>
      have htd := typedefs_cons_array sc _ 1 hl
      have h2' := h2 _ (htd ▸ h)
      simp [STATIC_ASSERT, checkDecls, checkDecl, h1, h2', hl, List.lookup, Variant.reason,
        Variant.construct]
    | some ty =>
      have h2' := h2 _ h
      by_cases hty : ty = .charArray 1
      · simp [STATIC_ASSERT, checkDecls, checkDecl, h1, h2', hl, hty, Variant.reason,
          Variant.construct]
      · simp [STATIC_ASSERT, checkDecls, checkDecl, h1, hl, hty, Variant.reason,
          Variant.construct]

/-- An assertion whose condition is not a constant expression is rejected in
every scope. -/
theorem static_assert_error (t : Target) (m : Macros) (v : Variant) (sc : Scope) (n : Nat)
    (cond : Expr) (msg : String) (d : Diagnostic) (h : eval (typedefs sc) t cond = .error d) :
    (checkDecls t sc (STATIC_ASSERT m v n cond msg).1).accepted = false := by
  cases v with
  | counter =>
    have hm := checkMembers_or_type (typedefs sc) t m cond msg
    simp only [h, STATIC_ASSERT_OR_TYPE] at hm
    simp [STATIC_ASSERT, checkDecls, checkDecl, hm, Check.accepted]
  | gnuc =>
    have hm := eval_helper (typedefs sc) t cond (m msg)
    simp only [h] at hm
    simp [STATIC_ASSERT, checkDecls, checkDecl, hm, Check.accepted, expandToken]
  | fallback =>
    have h1 := eval_const_small (typedefs sc) t 1 (by decide) (by decide)
    cases hl : sc.lookup ("static_assertion_failed_" ++ msg) with
    | none =>
      have htd := typedefs_cons_array sc _ 1 hl
      have h2' : eval (typedefs (("static_assertion_failed_" ++ msg, .charArray 1) :: sc)) t
          (.ternary cond (.const 1) (.const 2)) = .error d :=
        eval_ternary_error (htd ▸ h)
      simp [STATIC_ASSERT, checkDecls, checkDecl, h1, h2', hl, List.lookup, Check.accepted]
    | some ty =>
      have h2' : eval (typedefs sc) t (.ternary cond (.const 1) (.const 2)) = .error d :=
        eval_ternary_error h
      by_cases hty : ty = .charArray 1
      · simp [STATIC_ASSERT, checkDecls, checkDecl, h1, h2', hl, hty, Check.accepted]
      · simp [STATIC_ASSERT, checkDecls, checkDecl, h1, hl, hty, Check.accepted]

/-- An assertion whose condition has a non-zero value is accepted in every
scope its names fit in. -/
theorem static_assert_true (t : Target) (m : Macros) (v : Variant) (sc : Scope) (n : Nat)
    (cond : Expr) (msg : String) (x : Value) (h : eval (typedefs sc) t cond = .ok x)
    (hx : x.val ≠ 0) (hs : Fits m v n msg sc) :
    checkDecls t sc (STATIC_ASSERT m v n cond msg).1 = .ok (scopeAfter m v n msg sc) := by
  cases v with
  | counter =>
    have hm := checkMembers_or_type (typedefs sc) t m cond msg
    simp only [h, hx, if_false, STATIC_ASSERT_OR_TYPE] at hm
    have hl : sc.lookup
        (STATIC_ASSERT_CONCAT m "static_assertion_failed_" (.number (Nat.repr n))) = none := hs
    simp [STATIC_ASSERT, checkDecls, checkDecl, hm, hl, scopeAfter]
  | gnuc =>
    have hm := eval_helper (typedefs sc) t cond (m msg)
    simp only [h, hx, if_false] at hm
    rcases hs with hl | hl
    · simp [STATIC_ASSERT, checkDecls, checkDecl, hm, hl, scopeAfter, expandToken]
    · simp [STATIC_ASSERT, checkDecls, checkDecl, hm, hl, scopeAfter, expandToken]
  | fallback =>
    have h1 := eval_const_small (typedefs sc) t 1 (by decide) (by decide)
    have h2 : ∀ td, eval td t cond = .ok x →
        eval td t (.ternary cond (.const 1) (.const 2)) = .ok ⟨.int, 1⟩ := by
      intro td htd
      rw [eval_ternary htd (by decide) (by decide) (by decide) (by decide)]; simp [hx]
    rcases hs with hl | hl
    · have htd := typedefs_cons_array sc _ 1 hl
      have h2' := h2 _ (htd ▸ h)
      simp [STATIC_ASSERT, checkDecls, checkDecl, h1, h2', hl, List.lookup, scopeAfter]
    · have h2' := h2 _ h
      simp [STATIC_ASSERT, checkDecls, checkDecl, h1, h2', hl, scopeAfter]

/-- An assertion alone in a scope its names fit in is accepted exactly when
its condition holds there. -/
theorem accepted_in_scope (t : Target) (m : Macros) (v : Variant) (sc : Scope) (n : Nat)
    (cond : Expr) (msg : String) (hs : Fits m v n msg sc) :
    (checkDecls t sc (STATIC_ASSERT m v n cond msg).1).accepted =
      holds (typedefs sc) t cond := by
  rcases eval_cases (typedefs sc) t cond with ⟨d, hd⟩ | ⟨x, hx, h0⟩ | ⟨x, hx, hne⟩
  · rw [static_assert_error t m v sc n cond msg d hd, not_holds_of_error hd]
  · rw [static_assert_zero t m v sc n cond msg x hx h0, not_holds_of_zero hx h0]; rfl
  · rw [static_assert_true t m v sc n cond msg x hx hne hs, holds_of_ok hx hne]; rfl

theorem accepted_static_assert (t : Target) (m : Macros) (v : Variant) (n : Nat)
    (cond : Expr) (msg : String) :
    accepted t (STATIC_ASSERT m v n cond msg).1 = holds (typedefs []) t cond :=
  accepted_in_scope t m v [] n cond msg (fits_nil m v n msg)

theorem scopeOk_after (m : Macros) (v : Variant) (sc : Scope) (n : Nat) (cond : Expr)
    (msg : String) (hs : ScopeOk m v n sc) :
    ScopeOk m v (STATIC_ASSERT m v n cond msg).2 (scopeAfter m v n msg sc) := by
  cases v with
  | counter =>
    intro k hk
    simp only [STATIC_ASSERT] at hk
    have hne : STATIC_ASSERT_CONCAT m "static_assertion_failed_" (.number (Nat.repr k)) ≠
        STATIC_ASSERT_CONCAT m "static_assertion_failed_" (.number (Nat.repr n)) := by
      intro he
      have := concat_repr_injective he
      omega
    have hb : (STATIC_ASSERT_CONCAT m "static_assertion_failed_" (.number (Nat.repr k)) ==
        STATIC_ASSERT_CONCAT m "static_assertion_failed_" (.number (Nat.repr n))) = false := by
      simpa using hne
    have hl := hs k (by omega)
    simp only [scopeAfter, List.lookup, hb, hl]
  | gnuc =>
    rcases hs with hl | hl
    · right; simp [scopeAfter, hl, List.lookup]
    · right; simp [scopeAfter, hl]
  | fallback =>
    intro name ty hlk
    simp only [scopeAfter] at hlk
    cases hl : sc.lookup ("static_assertion_failed_" ++ msg) with
    | none =>
      simp only [hl, List.lookup] at hlk
      by_cases hn : name = "static_assertion_failed_" ++ msg
      · simp [hn] at hlk
        exact hlk.symm
      · have : (name == "static_assertion_failed_" ++ msg) = false := by simpa using hn
        simp only [this] at hlk
        exact hs _ _ hlk
    | some ty' =>
      simp only [hl] at hlk
      exact hs _ _ hlk

/-- A sequence of assertions is accepted exactly when every condition holds
where it stands. -/
theorem accepted_expandAll (t : Target) (m : Macros) (v : Variant)
    (as : List (Expr × String)) :
    ∀ (n : Nat) (sc : Scope), ScopeOk m v n sc →
      (checkDecls t sc (expandAll m v n as)).accepted = holdsInOrder t m v sc n as := by
  induction as with
  | nil => intro n sc _; rfl
  | cons a rest ih =>
    intro n sc hs
    obtain ⟨cond, msg⟩ := a
    simp only [expandAll, checkDecls_append, holdsInOrder]
    rcases eval_cases (typedefs sc) t cond with ⟨d, hd⟩ | ⟨x, hx, h0⟩ | ⟨x, hx, hne⟩
    · have hr := static_assert_error t m v sc n cond msg d hd
      obtain ⟨e, he⟩ := (not_accepted_iff_error _).mp hr
      rw [he, not_holds_of_error hd]; rfl
    · rw [static_assert_zero t m v sc n cond msg x hx h0, not_holds_of_zero hx h0]; rfl
    · rw [static_assert_true t m v sc n cond msg x hx hne (fits_of_scopeOk msg hs),
        holds_of_ok hx hne, Bool.true_and]
      exact ih _ _ (scopeOk_after m v sc n cond msg hs)

/-- A sequence of assertions whose conditions hold where they stand passes, and
leaves a scope that again satisfies `ScopeOk`. -/
theorem checkDecls_expandAll (t : Target) (m : Macros) (v : Variant)
    (as : List (Expr × String)) :
    ∀ (n : Nat) (sc : Scope), ScopeOk m v n sc → holdsInOrder t m v sc n as = true →
      ∃ sc' n', checkDecls t sc (expandAll m v n as) = .ok sc' ∧ ScopeOk m v n' sc' := by
  induction as with
  | nil => intro n sc hs _; exact ⟨sc, n, rfl, hs⟩
  | cons a rest ih =>
    intro n sc hs hall
    obtain ⟨cond, msg⟩ := a
    simp only [holdsInOrder, Bool.and_eq_true] at hall
    obtain ⟨x, hx, hne⟩ := holds_iff.mp hall.1
    simp only [expandAll, checkDecls_append]
    rw [static_assert_true t m v sc n cond msg x hx hne (fits_of_scopeOk msg hs)]
    exact ih _ _ (scopeOk_after m v sc n cond msg hs) hall.2

/-- Conditions that hold whatever the typedef names in scope hold where they
stand. -/
theorem holdsInOrder_of_forall (t : Target) (m : Macros) (v : Variant)
    (as : List (Expr × String)) (h : ∀ a ∈ as, ∀ td, holds td t a.1 = true) :
    ∀ (sc : Scope) (n : Nat), holdsInOrder t m v sc n as = true := by
  induction as with
  | nil => intro sc n; rfl
  | cons a rest ih =>
    intro sc n
    obtain ⟨cond, msg⟩ := a
    simp only [holdsInOrder, Bool.and_eq_true]
    exact ⟨h (cond, msg) (List.mem_cons_self _ _) _,
      ih (fun a ha => h a (List.mem_cons_of_mem _ ha)) _ _⟩

/-! ## Selection of the definitions -/

/-- Each definition of `STATIC_ASSERT` is selected by some compiler. -/
theorem staticAssert_selected (v : Variant) : ∃ c : Compiler, c.staticAssert = v := by
  cases v
  · exact ⟨⟨true, none, false, false⟩, rfl⟩
  · exact ⟨⟨false, some 4, false, false⟩, rfl⟩
  · exact ⟨⟨false, none, false, false⟩, rfl⟩

/-- Each definition of `STATIC_ASSERT_OR_ZERO` is selected by some compiler. -/
theorem orZero_selected (z : ZeroVariant) : ∃ c : Compiler, c.orZero = z := by
  cases z
  · exact ⟨⟨true, none, true, false⟩, rfl⟩
  · exact ⟨⟨true, some 4, false, false⟩, rfl⟩

/-! ## Definitions and typedef names of the expansions -/

theorem definitions_append (a b : List Decl) :
    definitions (a ++ b) = definitions a ++ definitions b := by
  induction a with
  | nil => rfl
  | cons d ds ih => cases d <;> simp [definitions, ih]

theorem definitions_static_assert (m : Macros) (v : Variant) (n : Nat) (cond : Expr)
    (msg : String) : definitions (STATIC_ASSERT m v n cond msg).1 = [] := by
  cases v <;> rfl

theorem definitions_expandAll (m : Macros) (v : Variant) (as : List (Expr × String)) :
    ∀ n, definitions (expandAll m v n as) = [] := by
  induction as with
  | nil => intro n; rfl
  | cons a rest ih =>
    intro n
    obtain ⟨cond, msg⟩ := a
    simp [expandAll, definitions_append, definitions_static_assert, ih]

theorem typedefNames_expandAll_counter (m : Macros) (as : List (Expr × String)) :
    ∀ n, typedefNames (expandAll m .counter n as) =
      (List.range' n as.length).map
        (fun k => STATIC_ASSERT_CONCAT m "static_assertion_failed_" (.number (Nat.repr k))) := by
  induction as with
  | nil => intro n; rfl
  | cons a rest ih =>
    intro n
    obtain ⟨cond, msg⟩ := a
    simp [expandAll, STATIC_ASSERT, typedefNames, ih, List.range'_succ]

/-! ## The test of the repository -/

/-- Lines 8 to 10 of `tests/test.c` pass in every definition, and line 11 then
stops the translation with a diagnostic on the name carrying its label. -/
theorem test_c_outcome (v : Variant) (z : ZeroVariant) :
    accepted target32 (testPassing gnuMacros v z 2).1 = true ∧
    checkDecls target32 [] (testProgram gnuMacros v z 2) =
      .error ⟨"static_assertion_failed_THIS_ERROR_MESSAGE_TELLS_THAT_ALL_TESTS_ARE_SUCCESSFUL",
        v.reason⟩ := by
  cases v <;> cases z <;> exact ⟨by decide, by decide⟩

/-! ## The contract of the three forms -/

/-- C1: for every label and every condition that is an integer constant
expression with the value 0, `STATIC_ASSERT(cond, label)` is rejected, in every
scope and in each of its three definitions. The diagnostic has the reason of
the definition selected: a named bit-field of width `!!(cond)` = 0 for the
`__COUNTER__` definition, a bit-field of width -1 for the GNU C definition,
one array declared with the lengths 1 and 2 for the fallback definition. -/
theorem static_assert_rejects_false (t : Target) (m : Macros) (v : Variant) (sc : Scope)
    (n : Nat) (cond : Expr) (msg : String) (x : Value)
    (h : eval (typedefs sc) t cond = .ok x) (hx : x.val = 0) :
    (checkDecls t sc (STATIC_ASSERT m v n cond msg).1).accepted = false ∧
    (∃ d, checkDecls t sc (STATIC_ASSERT m v n cond msg).1 = .error d ∧
      d.reason = v.reason) ∧
    eval (typedefs sc) t (.lnot (.lnot cond)) = .ok ⟨.int, 0⟩ ∧
    eval (typedefs sc) t (.ternary cond (.const 1) (.const (-1))) = .ok ⟨.int, -1⟩ ∧
    eval (typedefs sc) t (.const 1) = .ok ⟨.int, 1⟩ ∧
    eval (typedefs sc) t (.ternary cond (.const 1) (.const 2)) = .ok ⟨.int, 2⟩ := by
  have hz := static_assert_zero t m v sc n cond msg x h hx
  refine ⟨?_, ⟨_, hz, rfl⟩, ?_, ?_, ?_, ?_⟩
  · rw [hz]; rfl
  · rw [eval_lnot_lnot h]; simp [hx]
  · rw [eval_ternary h (by decide) (by decide) (by decide) (by decide)]; simp [hx]
  · exact eval_const_small _ t 1 (by decide) (by decide)
  · rw [eval_ternary h (by decide) (by decide) (by decide) (by decide)]; simp [hx]

theorem static_assert_rejects_false_witness :
    (eval (typedefs []) target32 (.const 0) = .ok ⟨.int, 0⟩ ∧ (0 : Int) = 0) ∧
    (checkDecls target32 []
      (STATIC_ASSERT gnuMacros .fallback 2 (.const 0)
        "THIS_ERROR_MESSAGE_TELLS_THAT_ALL_TESTS_ARE_SUCCESSFUL").1).accepted = false :=
  ⟨⟨by decide, rfl⟩,
    (static_assert_rejects_false target32 gnuMacros .fallback [] 2 (.const 0)
      "THIS_ERROR_MESSAGE_TELLS_THAT_ALL_TESTS_ARE_SUCCESSFUL" ⟨.int, 0⟩
      (by decide) rfl).1⟩

/-- C5: for every condition that is not a constant expression, each of
`STATIC_ASSERT` (in every scope and definition), `STATIC_ASSERT_OR_TYPE` and
`STATIC_ASSERT_OR_ZERO` (in both definitions) is rejected. -/
theorem undecidable_rejected (t : Target) (m : Macros) (v : Variant) (z : ZeroVariant)
    (sc : Scope) (n : Nat) (cond : Expr) (msg : String)
    (h : (eval (typedefs sc) t cond).accepted = false) :
    (checkDecls t sc (STATIC_ASSERT m v n cond msg).1).accepted = false ∧
    (checkMembers (typedefs sc) t (STATIC_ASSERT_OR_TYPE m cond msg)).accepted = false ∧
    (eval (typedefs sc) t (STATIC_ASSERT_OR_ZERO m z cond msg)).accepted = false := by
  obtain ⟨d, hd⟩ := (not_accepted_iff_error _).mp h
  refine ⟨static_assert_error t m v sc n cond msg d hd, ?_, ?_⟩
  · rw [accepted_or_type]; exact not_holds_of_error hd
  · rw [accepted_or_zero, not_holds_of_error hd]; rfl

theorem undecidable_rejected_witness :
    (eval (typedefs []) target32 (.eq (.runtime "argc") (.const 1))).accepted = false ∧
    (checkDecls target32 []
      (STATIC_ASSERT gnuMacros .gnuc 0 (.eq (.runtime "argc") (.const 1))
        "argc_is_one").1).accepted = false :=
  ⟨by decide,
    (undecidable_rejected target32 gnuMacros .gnuc .offsetof [] 0
      (.eq (.runtime "argc") (.const 1)) "argc_is_one" (by decide)).1⟩

/-- C9: an assertion generates no code and no storage: every definition of
`STATIC_ASSERT` expands to typedef and extern declarations only, so it defines
no object and no function, and a translation unit defines the same objects and
functions with a sequence of assertions as without it; for a true condition
`STATIC_ASSERT_OR_TYPE` is a well-formed type specifier, and
`STATIC_ASSERT_OR_ZERO`, whenever it is accepted, is an integer constant
expression, the constant 0. -/
theorem no_runtime_effect (t : Target) (m : Macros) (v : Variant) (z : ZeroVariant)
    (td : String → Bool) (n : Nat) (cond : Expr) (msg : String) (as : List (Expr × String))
    (pre post : List Decl) :
    definitions (STATIC_ASSERT m v n cond msg).1 = [] ∧
    definitions (pre ++ (STATIC_ASSERT m v n cond msg).1 ++ post) = definitions (pre ++ post) ∧
    definitions (pre ++ expandAll m v n as ++ post) = definitions (pre ++ post) ∧
    (holds td t cond = true →
      checkMembers td t (STATIC_ASSERT_OR_TYPE m cond msg) = .ok () ∧
      (classOk m td z msg = true →
        eval td t (STATIC_ASSERT_OR_ZERO m z cond msg) = .ok ⟨z.ty, 0⟩)) ∧
    (∀ x, eval td t (STATIC_ASSERT_OR_ZERO m z cond msg) = .ok x → x = ⟨z.ty, 0⟩) := by
  refine ⟨definitions_static_assert m v n cond msg, ?_, ?_, ?_, ?_⟩
  · simp [definitions_append, definitions_static_assert]
  · simp [definitions_append, definitions_expandAll]
  · intro h
    refine ⟨?_, eval_or_zero_of_holds m z msg h⟩
    obtain ⟨x, hx, hne⟩ := holds_iff.mp h
    rw [checkMembers_or_type, hx]
    simp [hne]
  · intro x hx
    have ha := accepted_or_zero td t m z cond msg
    rw [hx] at ha
    simp only [Check.accepted] at ha
    have hb := ha.symm
    rw [Bool.and_eq_true] at hb
    rw [eval_or_zero_of_holds m z msg hb.1 hb.2] at hx
    exact (Except.ok.inj hx).symm

theorem no_runtime_effect_witness :
    holds (typedefs []) target32 testCondition = true ∧
    definitions
      ([.definition "main"] ++
        (STATIC_ASSERT gnuMacros .gnuc 0 testCondition "string_should_be_first").1 ++
        [.definition "buffer"]) = ["main", "buffer"] ∧
    checkMembers (typedefs []) target32
      (STATIC_ASSERT_OR_TYPE gnuMacros testCondition "string_should_be_first") = .ok () :=
  ⟨by decide,
    (no_runtime_effect target32 gnuMacros .gnuc .template (typedefs []) 0 testCondition
      "string_should_be_first" [] [.definition "main"] [.definition "buffer"]).2.1,
    ((no_runtime_effect target32 gnuMacros .gnuc .template (typedefs []) 0 testCondition
      "string_should_be_first" [] [.definition "main"] [.definition "buffer"]).2.2.2.1
        (by decide)).1⟩

/-! ## Where the label and the type of the expression form matter -/

theorem eval_add_of_ok {td : String → Bool} {t : Target} {a b : Expr} {x y : Value}
    (ha : eval td t a = .ok x) (hb : eval td t b = .ok y) :
    eval td t (.add a b) =
      match x.ty.common y.ty with
      | .sizeT =>
        .ok ⟨.sizeT, (t.convert .sizeT x + t.convert .sizeT y) % (2 : Int) ^ t.sizeBits⟩
      | .int =>
        if t.intRepresentable (x.val + y.val) then .ok ⟨.int, x.val + y.val⟩
        else .error ⟨"+", .notRepresentable⟩ := by
  simp [eval, ha, hb]

theorem eval_add_error {td : String → Bool} {t : Target} {a b : Expr} {d : Diagnostic}
    (ha : eval td t a = .error d) : eval td t (.add a b) = .error d := by
  simp [eval, ha]

theorem eval_const_of_representable {td : String → Bool} {t : Target} {y : Int}
    (hy : t.intRepresentable y = true) : eval td t (.const y) = .ok ⟨.int, y⟩ := by
  simp [eval, hy]

theorem emod_two_pow_of_nonneg (t : Target) (y : Int) (h0 : 0 ≤ y)
    (h : t.intRepresentable y = true) : y % (2 : Int) ^ t.sizeBits = y := by
  have hb := t.intBits_le_sizeBits
  have hp : (2 : Int) ^ (t.intBits - 1) ≤ (2 : Int) ^ t.sizeBits :=
    pow_le_pow_right₀ (by norm_num) (by omega)
  simp only [Target.intRepresentable, decide_eq_true_eq] at h
  exact Int.emod_eq_of_lt h0 (lt_of_lt_of_le h.2 hp)

/-- C7, as stated, fails: with the label `linux`, a macro for `1`, and a false
condition, the bit-field the `__COUNTER__` and GNU C definitions of
`STATIC_ASSERT`, `STATIC_ASSERT_OR_TYPE` and the `offsetof` definition of
`STATIC_ASSERT_OR_ZERO` make ill-formed is named `static_assertion_failed_1`,
the C++ definition of `STATIC_ASSERT_OR_ZERO` stops at `class 1`, and `linux`
is not a substring of that name. -/
theorem diagnostic_label_counterexample :
    eval (typedefs []) target32 (.const 0) = .ok ⟨.int, 0⟩ ∧
    checkDecls target32 [] (STATIC_ASSERT gnuMacros .counter 2 (.const 0) "linux").1 =
      .error ⟨"static_assertion_failed_1", .zeroWidth⟩ ∧
    checkDecls target32 [] (STATIC_ASSERT gnuMacros .gnuc 2 (.const 0) "linux").1 =
      .error ⟨"static_assertion_failed_1", .negativeWidth⟩ ∧
    checkMembers (typedefs []) target32 (STATIC_ASSERT_OR_TYPE gnuMacros (.const 0) "linux") =
      .error ⟨"static_assertion_failed_1", .zeroWidth⟩ ∧
    eval (typedefs []) target32 (STATIC_ASSERT_OR_ZERO gnuMacros .offsetof (.const 0) "linux") =
      .error ⟨"static_assertion_failed_1", .zeroWidth⟩ ∧
    eval (typedefs []) target32 (STATIC_ASSERT_OR_ZERO gnuMacros .template (.const 0) "linux") =
      .error ⟨"1", .notAnIdentifier⟩ ∧
    "static_assertion_failed_1" ≠ "static_assertion_failed_" ++ "linux" ∧
    ¬ ("linux".data <:+: "static_assertion_failed_1".data) := by
  decide

/-- The construct each form makes ill-formed when the condition is false is
named after the label as the form pastes it: `static_assertion_failed_`
followed by the macro expansion of the label, or by the label itself in the
fallback definition of `STATIC_ASSERT`, and the class named by the macro
expansion of the label in the C++ definition of `STATIC_ASSERT_OR_ZERO`. -/
theorem diagnostic_names_expansion (t : Target) (m : Macros) (v : Variant) (sc : Scope)
    (n : Nat) (cond : Expr) (msg : String) (x : Value)
    (h : eval (typedefs sc) t cond = .ok x) (hx : x.val = 0) :
    checkDecls t sc (STATIC_ASSERT m v n cond msg).1 =
      .error ⟨match v with
        | .fallback => "static_assertion_failed_" ++ msg
        | _ => "static_assertion_failed_" ++ (m msg).spelling, v.reason⟩ ∧
    checkMembers (typedefs sc) t (STATIC_ASSERT_OR_TYPE m cond msg) =
      .error ⟨"static_assertion_failed_" ++ (m msg).spelling, .zeroWidth⟩ ∧
    eval (typedefs sc) t (STATIC_ASSERT_OR_ZERO m .offsetof cond msg) =
      .error ⟨"static_assertion_failed_" ++ (m msg).spelling, .zeroWidth⟩ ∧
    (∃ r, eval (typedefs sc) t (STATIC_ASSERT_OR_ZERO m .template cond msg) =
      .error ⟨(m msg).spelling, r⟩) := by
  refine ⟨?_, ?_, ?_, ?_⟩
  · rw [static_assert_zero t m v sc n cond msg x h hx]
    cases v <;> rfl
  · rw [checkMembers_or_type, h]; simp [hx]
  · rw [eval_or_zero_offsetof, h]; simp [hx]
  · rw [eval_or_zero_template]
    cases hm : m msg with
    | number s => exact ⟨_, rfl⟩
    | ident s =>
      by_cases htd : typedefs sc s = true
      · exact ⟨.namesATypedef, by simp [htd, Token.spelling]⟩
      · exact ⟨.incompleteType, by simp [htd, h, hx, Token.spelling]⟩

/-- C7, amended: for every label that is not a macro name, the construct each
form makes ill-formed when the condition is false carries the label in its
name: in every definition of `STATIC_ASSERT`, in `STATIC_ASSERT_OR_TYPE` and in
the `offsetof` definition of `STATIC_ASSERT_OR_ZERO` the offending bit-field or
array is named exactly `static_assertion_failed_` followed by the label, and
the C++ definition of `STATIC_ASSERT_OR_ZERO` stops on the class named by the
label; the label is a substring of the identifier of the diagnostic. The
fallback definition of `STATIC_ASSERT` names its array so for every label. -/
theorem diagnostic_names_label (t : Target) (m : Macros) (v : Variant) (sc : Scope) (n : Nat)
    (cond : Expr) (msg : String) (x : Value) (h : eval (typedefs sc) t cond = .ok x)
    (hx : x.val = 0) :
    (m msg = .ident msg →
      (∃ r, checkDecls t sc (STATIC_ASSERT m v n cond msg).1 =
        .error ⟨"static_assertion_failed_" ++ msg, r⟩) ∧
      checkMembers (typedefs sc) t (STATIC_ASSERT_OR_TYPE m cond msg) =
        .error ⟨"static_assertion_failed_" ++ msg, .zeroWidth⟩ ∧
      eval (typedefs sc) t (STATIC_ASSERT_OR_ZERO m .offsetof cond msg) =
        .error ⟨"static_assertion_failed_" ++ msg, .zeroWidth⟩ ∧
      (∃ r, eval (typedefs sc) t (STATIC_ASSERT_OR_ZERO m .template cond msg) =
        .error ⟨msg, r⟩)) ∧
    checkDecls t sc (STATIC_ASSERT m .fallback n cond msg).1 =
      .error ⟨"static_assertion_failed_" ++ msg, .conflictingTypes⟩ ∧
    msg.data <:+: ("static_assertion_failed_" ++ msg).data := by
  refine ⟨?_, ?_, ?_⟩
  · intro hm
    obtain ⟨hsa, hty, hoff, htem⟩ := diagnostic_names_expansion t m v sc n cond msg x h hx
    rw [hm] at hty hoff htem
    refine ⟨⟨v.reason, ?_⟩, hty, hoff, htem⟩
    rw [hsa, hm]
    cases v <;> rfl
  · exact (diagnostic_names_expansion t m .fallback sc n cond msg x h hx).1
  · rw [String.data_append]
    exact (List.suffix_append _ _).isInfix

theorem diagnostic_names_label_witness :
    (eval (typedefs []) target32 (.lnot testCondition) = .ok ⟨.int, 0⟩ ∧ (0 : Int) = 0 ∧
      gnuMacros "string_is_not_first" = .ident "string_is_not_first") ∧
    checkMembers (typedefs []) target32
      (STATIC_ASSERT_OR_TYPE gnuMacros (.lnot testCondition) "string_is_not_first") =
      .error ⟨"static_assertion_failed_" ++ "string_is_not_first", .zeroWidth⟩ :=
  ⟨⟨by decide, rfl, by decide⟩,
    ((diagnostic_names_label target32 gnuMacros .counter [] 0 (.lnot testCondition)
      "string_is_not_first" ⟨.int, 0⟩ (by decide) rfl).1 (by decide)).2.1⟩

end StaticAssert
